import Mathlib

/-!
Verification of the build-command interceptor
(`src/interceptor/interceptor.cc`, `src/interceptor/main.cc`, and the
dumper in `src/unnamed/part_000`).

The embedding works over Lean `String`s, with substring search and
replacement carried out on the underlying `List Char`.  Filesystem state
is abstracted as a predicate `String → Bool` ("is a regular file"), and
the C++ `std::filesystem::relative` computation is modelled lexically
(absolute, symlink-free, dot-dot-free paths), as noted on `lexRelative`.
Running out of iteration fuel and the undefined-behaviour branches of the
source are made explicit as error values.
-/

namespace Interceptor

/-! ## Basic string machinery (List Char based) -/

/-- Leftmost occurrence of `pat` in `s`, split into the part before the
occurrence and the part after it.  Models `std::string::find` followed by
taking the surrounding pieces. -/
def splitAtSub (pat : List Char) : List Char → Option (List Char × List Char)
  | [] => if pat.isPrefixOf ([] : List Char) then some ([], []) else none
  | c :: cs =>
    if pat.isPrefixOf (c :: cs) then some ([], (c :: cs).drop pat.length)
    else
      match splitAtSub pat cs with
      | some pr => some (c :: pr.1, pr.2)
      | none => none

/-- The replacement loop of `make_relative` (interceptor.cc lines 124-129):
repeatedly find the leftmost occurrence of `pat` and replace it by `repl`,
restarting the search from the beginning of the string, until no occurrence
remains.  `fuel` bounds the number of iterations; `none` means the bound was
exhausted. -/
def replFix (fuel : Nat) (pat repl s : List Char) : Option (List Char) :=
  match splitAtSub pat s with
  | none => some s
  | some pr =>
    match fuel with
    | 0 => none
    | f + 1 => replFix f pat repl (pr.1 ++ repl ++ pr.2)

/-- Worker for the single left-to-right replacement pass; the `Nat`
argument is a structural-recursion counter, always instantiated with the
length of the string, which never runs out because every step consumes at
least one character. -/
def replaceSPAux (pat repl : List Char) : Nat → List Char → List Char
  | 0, s => s
  | n + 1, s =>
    match s with
    | [] => []
    | c :: cs =>
      if pat ≠ [] ∧ pat.isPrefixOf (c :: cs) = true then
        repl ++ replaceSPAux pat repl n ((c :: cs).drop pat.length)
      else c :: replaceSPAux pat repl n cs

/-- Modelled from the spec: a single left-to-right pass replacing every
non-overlapping occurrence of `pat` by `repl`; occurrences created by
earlier replacements are not themselves replaced.  This is the behaviour
the specification ascribes to the canonicaliser, kept for comparison with
the source's `replFix`. -/
def replaceSP (pat repl s : List Char) : List Char :=
  replaceSPAux pat repl s.length s

/-- String wrapper for `replFix`. -/
def replFixS (fuel : Nat) (pat repl s : String) : Option String :=
  (replFix fuel pat.data repl.data s.data).map String.mk

/-- A string whose occurrence structure keeps the textual substitution
simple: either `pat` and `repl` both have no occurrence, or `pat` occurs
exactly where its leftmost split says, the replacement creates no new
`pat` occurrence, the leftmost `repl` occurrence of the replaced string is
the inserted one, and `repl` does not occur after it.  Under this
condition the substitution is invertible. -/
def simpleSubst (pat repl s : List Char) : Bool :=
  match splitAtSub pat s with
  | none => splitAtSub repl s == none
  | some (a, b) =>
      splitAtSub pat (a ++ repl ++ b) == none &&
      splitAtSub repl (a ++ repl ++ b) == some (a, b) &&
      splitAtSub repl b == none

/-- String wrapper for `replaceSP`. -/
def replaceSPS (pat repl s : String) : String :=
  String.mk (replaceSP pat.data repl.data s.data)

/-- First character of a string; the null character for the empty string
(models `std::string::operator[]` at index 0, which returns a null
character when the index equals the size). -/
def strHead (s : String) : Char := s.data.headD (Char.ofNat 0)

/-- Last character of a string (used only under non-emptiness guards). -/
def strLast (s : String) : Char := s.data.getLastD (Char.ofNat 0)

/-- Split a character list at the first occurrence of `ch`. -/
def splitAtChar : List Char → Char → Option (List Char × List Char)
  | [], _ => none
  | c :: cs, ch =>
    if c = ch then some ([], cs)
    else (splitAtChar cs ch).map (fun pr => (c :: pr.1, pr.2))

/-- Boolean prefix test on strings via the character lists. -/
def strIsPrefixOf (p s : String) : Bool := p.data.isPrefixOf s.data

/-- `mapOptM f l`: apply the fallible `f` to every element; `none` if any
application fails.  Used for the argument-vector rewriting. -/
def mapOptM (f : α → Option β) : List α → Option (List β)
  | [] => some []
  | a :: l =>
    match f a, mapOptM f l with
    | some b, some bs => some (b :: bs)
    | _, _ => none

/-! ## Lexical path helpers -/

/-- Split a path into components at the slashes (accumulator is reversed). -/
def splitComps : List Char → List Char → List String
  | [], cur => [String.mk cur.reverse]
  | c :: cs, cur =>
    if c = '/' then String.mk cur.reverse :: splitComps cs []
    else splitComps cs (c :: cur)

/-- Path components, dropping empty components and `.`. -/
def pathComponents (s : String) : List String :=
  (splitComps s.data []).filter (fun c => ¬(c = "" ∨ c = "."))

/-- Drop the common leading components of two component lists. -/
def dropCommon : List String → List String → List String × List String
  | a :: as, b :: bs => if a = b then dropCommon as bs else (a :: as, b :: bs)
  | as, bs => (as, bs)

/-- Modelled from `std::filesystem::relative p base`: the lexical relative
path from `base` to `p`, valid for absolute, symlink-free, dot-dot-free
paths (the library function additionally canonicalises against the real
filesystem, which the embedding abstracts away). -/
def lexRelative (p base : String) : String :=
  let pr := dropCommon (pathComponents p) (pathComponents base)
  let comps := (List.replicate pr.2.length "..") ++ pr.1
  if comps = [] then "." else String.intercalate "/" comps

/-! ## The Command model (interceptor.cc / log.proto) -/

/-- One intercepted exec call, as stored in the log
(`Command` message; spec section 3). -/
structure Command where
  program : String
  current_directory : String
  arguments : List String
  environment_variables : List (String × String)
  inputs : List String
  outputs : List String
deriving DecidableEq, Repr

def kEnvRootDirectory : String := "INTERCEPTOR_root_directory"
def kEnvCommandLog : String := "INTERCEPTOR_command_log"

/-- Lookup in the environment map; a later binding for the same key
overrides an earlier one (protobuf map insertion semantics). -/
def envLookup (env : List (String × String)) (key : String) : Option String :=
  env.foldl (fun acc p => if p.1 = key then some p.2 else acc) none

/-- Split `KEY=VALUE` at the first `=`; `none` when no `=` occurs
(such entries are dropped, interceptor.cc lines 80-88). -/
def parseEnvEntry (s : String) : Option (String × String) :=
  (splitAtChar s.data '=').map (fun pr => (String.mk pr.1, String.mk pr.2))

/-- `instantiate_command` (interceptor.cc lines 71-91): build a `Command`
from the raw exec-call data.  `cwd` is the process working directory at
the moment of the call. -/
def instantiate_command (program : String) (argv envp : List String)
    (cwd : String) : Command :=
  { program := program
    current_directory := cwd
    arguments := argv
    environment_variables := envp.filterMap parseEnvEntry
    inputs := []
    outputs := [] }

/-! ## The canonicaliser (`make_relative`, interceptor.cc lines 93-134) -/

/-- The slash-terminated root string `R`: the environment value with a
trailing slash appended when missing (interceptor.cc lines 98-101). -/
def rootDirOf (v : String) : String :=
  if strLast v = '/' then v else v ++ "/"

/-- The relative root string `r`: the root directory made relative to the
working directory, slash-terminated, and cleared when it is `./`
(interceptor.cc lines 107-113). -/
def relRootOf (v cwd : String) : String :=
  let r1 := lexRelative (rootDirOf v) cwd
  let r2 := if strLast r1 = '/' then r1 else r1 ++ "/"
  if r2 = "./" then "" else r2

inductive MRErr where
  | emptyRoot
  | fuelOut
deriving DecidableEq, Repr

/-- `make_relative` (interceptor.cc lines 93-134).  `.error .emptyRoot`
models the out-of-bounds index `root_directory[size()-1]` taken when the
environment variable is present with the empty string as value;
`.error .fuelOut` models non-termination of the replacement loop. -/
def make_relative (fuel : Nat) (cmd : Command) : Except MRErr Command :=
  match envLookup cmd.environment_variables kEnvRootDirectory with
  | none => .ok cmd
  | some v =>
    if v = "" then .error .emptyRoot
    else
      let R := rootDirOf v
      let r := relRootOf v cmd.current_directory
      if (splitAtSub R.data r.data).isSome then .ok cmd
      else
        match replFixS fuel R r cmd.program,
              mapOptM (replFixS fuel R r) cmd.arguments with
        | some p, some args =>
          .ok { cmd with
                  program := p
                  current_directory := lexRelative cmd.current_directory R
                  arguments := args }
        | _, _ => .error .fuelOut

/-! ## Command analysis (interceptor.cc lines 201-284) -/

/-- Inputs and outputs derived by an analyser (interceptor.h). -/
structure AnalysisResult where
  inputs : List String
  outputs : List String
deriving DecidableEq, Repr

def kSkipNextArguments : List String :=
  ["-isystem", "-I", "-L", "-m", "-soname", "-z"]

def kOutputOption : String := "-Wp,-MMD,"

/-- The loop body of `analyze_compiler_linker` (interceptor.cc lines
216-246), iterating over the arguments after `arguments[0]` with the two
state flags `next_is_out` and `skip_next` and the collected result. -/
def aclAcc1 (a : String) (acc : AnalysisResult) : AnalysisResult :=
  if strIsPrefixOf kOutputOption a then
    { acc with outputs := acc.outputs ++ [String.mk (a.data.drop kOutputOption.data.length)] }
  else acc

def aclGo : List String → Bool → Bool → AnalysisResult → AnalysisResult
  | [], _, _, acc => acc
  | a :: rest, nOut, skip, acc =>
    if a = "-o" then aclGo rest true skip acc
    else if nOut then aclGo rest false skip { acc with outputs := acc.outputs ++ [a] }
    else if skip then aclGo rest nOut false (aclAcc1 a acc)
    else if a = "/dev/null" ∨ a = "-" then ⟨[], []⟩
    else
      let skipNext := kSkipNextArguments.contains a
      if strHead a = '-' then aclGo rest nOut skipNext (aclAcc1 a acc)
      else aclGo rest nOut skipNext
        { aclAcc1 a acc with inputs := (aclAcc1 a acc).inputs ++ [a] }

/-- `analyze_compiler_linker` (interceptor.cc lines 205-249): walk the
arguments after the program name. -/
def analyze_compiler_linker (arguments : List String) : AnalysisResult :=
  aclGo (arguments.drop 1) false false ⟨[], []⟩

/-- The evolution of the two flags of the compiler/linker walk on one
argument; mirrors the branch order of `aclGo`. -/
def aclStep (a : String) (st : Bool × Bool) : Bool × Bool :=
  if a = "-o" then (true, st.2)
  else if st.1 then (false, st.2)
  else if st.2 then (st.1, false)
  else (st.1, kSkipNextArguments.contains a)

/-- Flag state after processing a list of arguments. -/
def aclFlags (args : List String) (st : Bool × Bool) : Bool × Bool :=
  args.foldl (fun s a => aclStep a s) st

/-- `analyze_archiver` (interceptor.cc lines 251-264): fewer than three
arguments yield an empty result; otherwise `arguments[2]` is the single
output and `arguments[3..]` are the inputs. -/
def analyze_archiver (arguments : List String) : AnalysisResult :=
  match arguments with
  | _ :: _ :: out :: ins => ⟨ins, [out]⟩
  | _ => ⟨[], []⟩

/-- The tool names accepted by the compiler/linker regex
`^(.*/)?(clang|clang\+\+|gcc|g\+\+|ld(\.lld)?|llvm-strip)$`. -/
def kCompilerNames : List String :=
  ["clang", "clang++", "gcc", "g++", "ld", "ld.lld", "llvm-strip"]

/-- The tool names accepted by the archiver regex `^(.*/)?(llvm-)?ar$`. -/
def kArchiverNames : List String := ["ar", "llvm-ar"]

/-- Full-match semantics of the two registry regexes: the string is a tool
name, or ends in a slash followed by a tool name. -/
def matchToolName (names : List String) (s : String) : Bool :=
  names.any (fun n => s = n || ("/" ++ n).data.isSuffixOf s.data)

/-- `analyze_command` (interceptor.cc lines 277-284): dispatch on
`arguments[0]` through the analyser registry.  `none` models the undefined
out-of-bounds access `command.arguments()[0]` on an empty argument
vector. -/
def analyze_command (cmd : Command) : Option AnalysisResult :=
  match cmd.arguments with
  | [] => none
  | a0 :: _ =>
    some (if matchToolName kCompilerNames a0 then analyze_compiler_linker cmd.arguments
          else if matchToolName kArchiverNames a0 then analyze_archiver cmd.arguments
          else ⟨[], []⟩)

/-! ## Diagnostic rendering (interceptor.cc lines 136-172) -/

/-- `std::quoted`: wrap in double quotes, escaping quotes and backslashes. -/
def quotedStr (s : String) : String :=
  "\"" ++ String.mk ((s.data.map
    (fun c => if c = '"' ∨ c = '\\' then ['\\', c] else [c])).flatten) ++ "\""

/-- `dump_vector` (interceptor.cc lines 136-146): comma-separated quoted
elements. -/
def dumpVec (v : List String) : String :=
  String.intercalate ", " (v.map quotedStr)

/-- The escaping applied to argument text in the repr: tabs and newlines
become the two-character sequences backslash-t and backslash-n. -/
def escapeArg (s : String) : String :=
  String.mk ((s.data.map
    (fun c => if c = '\t' then ['\\', 't']
              else if c = '\n' then ['\\', 'n'] else [c])).flatten)

/-- The stream rendering of a command (interceptor.cc lines 148-172):
inputs and outputs, then the program followed by the arguments after
`arguments[0]`, each escaped. -/
def commandRepr (c : Command) : String :=
  "[(" ++ dumpVec c.inputs ++ ") => (" ++ dumpVec c.outputs ++ ")] " ++
  c.program ++ String.join ((c.arguments.drop 1).map (fun a => " " ++ escapeArg a))

/-! ## The analysis step and the trampoline
(`analyze` lines 176-199, `process_command` lines 290-313) -/

/-- Strip one leading `./` (interceptor.cc lines 180-189). -/
def stripDotSlash (s : String) : String :=
  if strIsPrefixOf "./" s then String.mk (s.data.drop 2) else s

inductive AnErr where
  | missingInput (diag : String)
  | ubEmptyArguments
deriving DecidableEq, Repr

/-- `analyze` (interceptor.cc lines 176-199): run the analyser, strip
leading `./` from inputs and outputs, and require every input to be a
regular file; a missing input produces the fatal diagnostic written to
the standard error stream before `exit(1)`. -/
def analyzeStep (isReg : String → Bool) (cmd : Command) : Except AnErr Command :=
  match analyze_command cmd with
  | none => .error .ubEmptyArguments
  | some res =>
    let ins := res.inputs.map stripDotSlash
    let outs := res.outputs.map stripDotSlash
    match ins.find? (fun i => ! isReg i) with
    | some bad =>
      .error (.missingInput ("missing input: " ++ bad ++ "\n" ++ commandRepr cmd ++ "\n"))
    | none => .ok { cmd with inputs := ins, outputs := outs }

/-- Outcome of `process_command` (interceptor.cc lines 290-313).
`fatalMissingInput` carries the `exit` status and the stderr text;
`run logged executed` means the command was appended to the log as
`logged` (when logging is enabled) and handed to the exec syscall. -/
inductive ProcResult where
  | bypass
  | fatalMissingInput (exitStatus : Nat) (stderr : String)
  | ubEmptyArguments
  | ubEmptyRootDir
  | fuelOut
  | run (logged : Option Command) (executed : Command)
deriving DecidableEq, Repr

/-- The log record of an outcome, if one was appended. -/
def loggedRecord : ProcResult → Option Command
  | .run l _ => l
  | _ => none

/-- The termination status of an outcome, if the trampoline exited the
process. -/
def exitedWith : ProcResult → Option Nat
  | .fatalMissingInput n _ => some n
  | _ => none

/-- `process_command` (interceptor.cc lines 290-313): bypass non-regular
programs, then build, canonicalise, analyse, log (with environment
variables cleared, lines 315-329) and execute. -/
def process_command (fuel : Nat) (isReg : String → Bool) (filename : String)
    (argv envp : List String) (cwd : String) : ProcResult :=
  if isReg filename then
    let cmd0 := instantiate_command filename argv envp cwd
    match make_relative fuel cmd0 with
    | .error .emptyRoot => .ubEmptyRootDir
    | .error .fuelOut => .fuelOut
    | .ok cmd1 =>
      match analyzeStep isReg cmd1 with
      | .error (.missingInput d) => .fatalMissingInput 1 d
      | .error .ubEmptyArguments => .ubEmptyArguments
      | .ok cmd2 =>
        let logged :=
          if (envLookup cmd2.environment_variables kEnvCommandLog).isSome then
            some { cmd2 with environment_variables := [] }
          else none
        .run logged cmd2
  else .bypass

/-! ## Compilation database projection (src/unnamed/part_000, `compdb_to_file`) -/

/-- The filename component of a path: everything after the last slash
(models `std::filesystem::path::filename`). -/
def pathFilename (s : String) : String :=
  String.mk (s.data.foldl (fun acc c => if c = '/' then [] else acc ++ [c]) [])

/-- Split a character list at its last `.`, returning the parts before and
after it. -/
def lastDotSplit : List Char → Option (List Char × List Char)
  | [] => none
  | c :: cs =>
    match lastDotSplit cs with
    | some pr => some (c :: pr.1, pr.2)
    | none => if c = '.' then some ([], cs) else none

/-- Models `std::filesystem::path::extension`: the suffix of the filename
from its last dot, empty for dotless names, for `.` and `..`, and for
names whose only dot is the leading one. -/
def pathExtension (s : String) : String :=
  let f := pathFilename s
  if f = "." ∨ f = ".." then ""
  else
    match lastDotSplit f.data with
    | none => ""
    | some pr => if pr.1 = [] then "" else String.mk ('.' :: pr.2)

/-- Models `std::filesystem::path::operator/`: an absolute right side
replaces the left side; otherwise the sides are joined with a single
separator. -/
def pathJoin (l r : String) : String :=
  if strHead r = '/' then r
  else if l = "" then r
  else if strLast l = '/' then l ++ r
  else l ++ "/" ++ r

/-- The compacted log (`Log` message): root directory and commands. -/
structure LogFile where
  root_directory : String
  commands : List Command
deriving DecidableEq, Repr

/-- One entry of the compilation database. -/
structure CompDBEntry where
  directory : String
  file : String
  output : Option String
  arguments : List String
deriving DecidableEq, Repr

def kCompileExtensions : List String := [".c", ".cc", ".cpp", ".cxx", ".S"]

def kCompilers : List String := ["clang", "clang++", "gcc", "g++"]

/-- The `single_output` lambda of `compdb_to_file` (part_000 lines
146-155): the outputs without `.d` files; their sole element when there is
exactly one, the empty string otherwise. -/
def singleOutputOf (outputs : List String) : String :=
  let l := outputs.filter (fun o => ¬ pathExtension o = ".d")
  if l.length = 1 then l.headD "" else ""

/-- The entries `compdb_to_file` (part_000 lines 135-182) emits for one
logged command: nothing for empty argument vectors, non-compiler argv0
basenames or `-E` invocations; otherwise one entry per input with a
recognised source extension.  The `output` field is set only when
`single_output` is non-empty (line 176). -/
def compdbEntriesOfCommand (root : String) (c : Command) : List CompDBEntry :=
  if c.arguments = [] then []
  else if ¬ kCompilers.contains (pathFilename (c.arguments.headD "")) then []
  else
    let so := singleOutputOf c.outputs
    if c.arguments.contains "-E" then []
    else
      (c.inputs.filter (fun i => kCompileExtensions.contains (pathExtension i))).map
        (fun i =>
          { directory := pathJoin root c.current_directory
            file := i
            output := if so = "" then none else some so
            arguments := c.arguments })

/-- All compilation-database entries of a compacted log, in log order. -/
def compdbEntries (log : LogFile) : List CompDBEntry :=
  (log.commands.map (compdbEntriesOfCommand log.root_directory)).flatten

/-- The text `compdb_to_file` writes: the literal `[]` line when no entry
was produced (part_000 lines 186-189); the non-empty case delegates to the
protobuf JSON printer, which lies outside the embedding and is abstracted
as `none`. -/
def compdb_to_file (log : LogFile) : Option String :=
  if compdbEntries log = [] then some "[]\n" else none

/-- Modelled from the spec: the compilation-database `output` field as the
specification words it: the unique non-`.d` element of `outputs`, omitted
when there are zero or more than one such elements.  Kept for comparison
with the source's `singleOutputOf`. -/
def specSingleOutput (outputs : List String) : Option String :=
  let l := outputs.filter (fun o => ¬ pathExtension o = ".d")
  if l.length = 1 then some (l.headD "") else none

/-! ## Driver exit status (src/interceptor/main.cc lines 144-155) -/

/-- Modelled from POSIX `waitpid`: the status value `std::system` returns
for a sub-command that terminated normally with the given exit code — the
code is carried in bits 8 through 15. -/
def systemWaitStatus (childExit : Nat) : Nat := (childExit % 256) * 256

/-- The driver's own exit status: `main` returns the raw `std::system`
value (main.cc line 154), of which the operating system keeps only the low
8 bits. -/
def driverExitStatus (childExit : Nat) : Nat := systemWaitStatus childExit % 256

/-! ## Helper lemmas on substring search and replacement -/

theorem splitAtSub_eq_append (pat : List Char) :
    ∀ s a b, splitAtSub pat s = some (a, b) → s = a ++ pat ++ b := by
  intro s
  induction s with
  | nil =>
    intro a b h
    rw [splitAtSub] at h
    split at h
    · rename_i hpre
      have hpat : pat = [] := by
        cases pat with
        | nil => rfl
        | cons p ps => simp [List.isPrefixOf] at hpre
      cases h
      simp [hpat]
    · cases h
  | cons c cs ih =>
    intro a b h
    rw [splitAtSub] at h
    split at h
    · rename_i hpre
      obtain ⟨u, hu⟩ := (List.isPrefixOf_iff_prefix.mp hpre)
      cases h
      rw [← hu, List.drop_left]
      simp
    · rename_i hpre
      cases hsc : splitAtSub pat cs with
      | none => rw [hsc] at h; cases h
      | some pr =>
        rw [hsc] at h
        cases h
        have := ih pr.1 pr.2 hsc
        simp [this]

theorem replaceSPAux_of_none (pat repl : List Char) :
    ∀ (n : Nat) (s : List Char), splitAtSub pat s = none →
      replaceSPAux pat repl n s = s := by
  intro n
  induction n with
  | zero => intro s _; rfl
  | succ m ih =>
    intro s h
    cases s with
    | nil => rfl
    | cons c cs =>
      rw [splitAtSub] at h
      split at h
      · cases h
      · rename_i hpre
        cases hsc : splitAtSub pat cs with
        | some pr => rw [hsc] at h; cases h
        | none =>
          rw [replaceSPAux, if_neg]
          · rw [ih cs hsc]
          · intro hc
            exact hpre hc.2

theorem replaceSP_of_none (pat repl s : List Char)
    (h : splitAtSub pat s = none) : replaceSP pat repl s = s :=
  replaceSPAux_of_none pat repl s.length s h

theorem replaceSPAux_congr (pat repl : List Char) (hpat : pat ≠ []) :
    ∀ (n : Nat) (s : List Char) (m : Nat), s.length ≤ n → s.length ≤ m →
      replaceSPAux pat repl n s = replaceSPAux pat repl m s := by
  intro n
  induction n with
  | zero =>
    intro s m hn _
    have : s = [] := List.eq_nil_of_length_eq_zero (Nat.le_zero.mp hn)
    subst this
    cases m <;> rfl
  | succ k ih =>
    intro s m hn hm
    cases s with
    | nil => cases m <;> rfl
    | cons c cs =>
      cases m with
      | zero => simp at hm
      | succ j =>
        rw [replaceSPAux, replaceSPAux]
        by_cases h : pat ≠ [] ∧ pat.isPrefixOf (c :: cs) = true
        · rw [if_pos h, if_pos h]
          have hlp : 0 < pat.length := List.length_pos.mpr hpat
          have hdrop : ((c :: cs).drop pat.length).length ≤ k := by
            simp only [List.length_drop, List.length_cons]
            simp only [List.length_cons] at hn
            omega
          have hdrop2 : ((c :: cs).drop pat.length).length ≤ j := by
            simp only [List.length_drop, List.length_cons]
            simp only [List.length_cons] at hm
            omega
          rw [ih _ j hdrop hdrop2]
        · rw [if_neg h, if_neg h]
          have h1 : cs.length ≤ k := by
            simp only [List.length_cons] at hn; omega
          have h2 : cs.length ≤ j := by
            simp only [List.length_cons] at hm; omega
          rw [ih cs j h1 h2]

theorem replaceSP_of_split (pat repl : List Char) (hpat : pat ≠ []) :
    ∀ s a b, splitAtSub pat s = some (a, b) →
      replaceSP pat repl s = a ++ repl ++ replaceSP pat repl b := by
  intro s
  induction s with
  | nil =>
    intro a b h
    rw [splitAtSub] at h
    split at h
    · rename_i hpre
      cases pat with
      | nil => exact absurd rfl hpat
      | cons p ps => simp [List.isPrefixOf] at hpre
    · cases h
  | cons c cs ih =>
    intro a b h
    rw [splitAtSub] at h
    split at h
    · rename_i hpre
      cases h
      rw [replaceSP, List.length_cons, replaceSPAux, if_pos ⟨hpat, hpre⟩]
      have hlp : 0 < pat.length := List.length_pos.mpr hpat
      have hle : ((c :: cs).drop pat.length).length ≤ cs.length := by
        simp only [List.length_drop, List.length_cons]
        omega
      rw [replaceSPAux_congr pat repl hpat cs.length _ ((c :: cs).drop pat.length).length
        hle (Nat.le_refl _)]
      rfl
    · rename_i hpre
      cases hsc : splitAtSub pat cs with
      | none => rw [hsc] at h; cases h
      | some pr =>
        rw [hsc] at h
        cases h
        rw [replaceSP, List.length_cons, replaceSPAux, if_neg (fun hc => hpre hc.2)]
        rw [replaceSPAux_congr pat repl hpat cs.length cs cs.length (Nat.le_refl _)
          (Nat.le_refl _)]
        have := ih pr.1 pr.2 hsc
        rw [replaceSP] at this
        rw [this]
        simp

theorem replFix_of_none (fuel : Nat) (pat repl s : List Char)
    (h : splitAtSub pat s = none) : replFix fuel pat repl s = some s := by
  rw [replFix, h]

theorem replFix_zero_some (pat repl s : List Char) (pr : List Char × List Char)
    (h : splitAtSub pat s = some pr) : replFix 0 pat repl s = none := by
  rw [replFix, h]

theorem replFix_succ_some (f : Nat) (pat repl s : List Char)
    (pr : List Char × List Char) (h : splitAtSub pat s = some pr) :
    replFix (f + 1) pat repl s = replFix f pat repl (pr.1 ++ repl ++ pr.2) := by
  rw [replFix, h]

theorem replFix_single (fuel : Nat) (pat repl s t a b : List Char)
    (hsp : splitAtSub pat s = some (a, b))
    (hnone : splitAtSub pat (a ++ repl ++ b) = none)
    (hfix : replFix fuel pat repl s = some t) : t = a ++ repl ++ b := by
  cases fuel with
  | zero => rw [replFix_zero_some pat repl s (a, b) hsp] at hfix; cases hfix
  | succ f =>
    rw [replFix_succ_some f pat repl s (a, b) hsp] at hfix
    rw [replFix_of_none f pat repl _ hnone] at hfix
    cases hfix
    rfl

/-- The reflexive-transitive closure of "replace the leftmost occurrence
of `pat` by `repl`", ending in a string with no occurrence of `pat`.
This is the relational description of the replacement loop of
`make_relative`. -/
inductive ReplStar (pat repl : List Char) : List Char → List Char → Prop
  | done (s : List Char) : splitAtSub pat s = none → ReplStar pat repl s s
  | step (s t : List Char) (pr : List Char × List Char) :
      splitAtSub pat s = some pr →
      ReplStar pat repl (pr.1 ++ repl ++ pr.2) t →
      ReplStar pat repl s t

theorem replStar_no_occurrence (pat repl : List Char) :
    ∀ s t, ReplStar pat repl s t → splitAtSub pat t = none := by
  intro s t h
  induction h with
  | done s hs => exact hs
  | step s t pr hs _ ih => exact ih

theorem replFix_replStar (pat repl : List Char) :
    ∀ (fuel : Nat) (s t : List Char), replFix fuel pat repl s = some t →
      ReplStar pat repl s t := by
  intro fuel
  induction fuel with
  | zero =>
    intro s t h
    cases hsp : splitAtSub pat s with
    | none =>
      rw [replFix_of_none 0 pat repl s hsp] at h
      cases h
      exact .done s hsp
    | some pr => rw [replFix_zero_some pat repl s pr hsp] at h; cases h
  | succ f ih =>
    intro s t h
    cases hsp : splitAtSub pat s with
    | none =>
      rw [replFix_of_none (f + 1) pat repl s hsp] at h
      cases h
      exact .done s hsp
    | some pr =>
      rw [replFix_succ_some f pat repl s pr hsp] at h
      exact .step s t pr hsp (ih _ t h)

theorem mapOptM_forall2 (f : α → Option β) :
    ∀ (l : List α) (l2 : List β), mapOptM f l = some l2 →
      List.Forall₂ (fun a b => f a = some b) l l2 := by
  intro l
  induction l with
  | nil =>
    intro l2 h
    rw [mapOptM] at h
    cases h
    exact .nil
  | cons a rest ih =>
    intro l2 h
    rw [mapOptM] at h
    cases hfa : f a with
    | none => rw [hfa] at h; cases h
    | some b =>
      rw [hfa] at h
      cases hrest : mapOptM f rest with
      | none => rw [hrest] at h; cases h
      | some bs =>
        rw [hrest] at h
        cases h
        exact .cons hfa (ih bs hrest)

/-! ## Helper lemmas on the compiler/linker walk -/

theorem aclGo_cons (a : String) (l : List String) (nOut skip : Bool)
    (acc : AnalysisResult) :
    aclGo (a :: l) nOut skip acc = ⟨[], []⟩ ∨
    ∃ acc2, aclGo (a :: l) nOut skip acc =
      aclGo l (aclStep a (nOut, skip)).1 (aclStep a (nOut, skip)).2 acc2 := by
  by_cases h1 : a = "-o"
  · exact Or.inr ⟨acc, by simp [aclGo, aclStep, h1]⟩
  · cases nOut with
    | true =>
      exact Or.inr ⟨{ acc with outputs := acc.outputs ++ [a] },
        by simp [aclGo, aclStep, h1]⟩
    | false =>
      cases skip with
      | true => exact Or.inr ⟨aclAcc1 a acc, by simp [aclGo, aclStep, h1]⟩
      | false =>
        by_cases h2 : a = "/dev/null" ∨ a = "-"
        · exact Or.inl (by simp [aclGo, h1, h2])
        · by_cases h3 : strHead a = '-'
          · exact Or.inr ⟨aclAcc1 a acc, by simp [aclGo, aclStep, h1, h2, h3]⟩
          · exact Or.inr
              ⟨{ aclAcc1 a acc with inputs := (aclAcc1 a acc).inputs ++ [a] },
                by simp [aclGo, aclStep, h1, h2, h3]⟩

theorem aclGo_append (suffix : List String) :
    ∀ (pre : List String) (nOut skip : Bool) (acc : AnalysisResult),
      aclGo (pre ++ suffix) nOut skip acc = ⟨[], []⟩ ∨
      ∃ acc2, aclGo (pre ++ suffix) nOut skip acc =
        aclGo suffix (aclFlags pre (nOut, skip)).1 (aclFlags pre (nOut, skip)).2 acc2 := by
  intro pre
  induction pre with
  | nil => intro nOut skip acc; exact Or.inr ⟨acc, rfl⟩
  | cons a rest ih =>
    intro nOut skip acc
    rw [List.cons_append]
    have hfl : aclFlags (a :: rest) (nOut, skip) = aclFlags rest (aclStep a (nOut, skip)) := rfl
    rcases aclGo_cons a (rest ++ suffix) nOut skip acc with h | ⟨acc2, h⟩
    · exact Or.inl h
    · rcases ih (aclStep a (nOut, skip)).1 (aclStep a (nOut, skip)).2 acc2 with h2 | ⟨acc3, h2⟩
      · exact Or.inl (h.trans h2)
      · refine Or.inr ⟨acc3, ?_⟩
        rw [Prod.mk.eta] at h2
        rw [hfl]
        exact h.trans h2

/-! ## Helper lemmas on the canonicaliser -/

theorem make_relative_ok_args_length (fuel : Nat) (cmd cmd' : Command)
    (h : make_relative fuel cmd = .ok cmd') :
    cmd'.arguments.length = cmd.arguments.length := by
  simp only [make_relative] at h
  split at h
  · cases h; rfl
  · split at h
    · cases h
    · split at h
      · cases h; rfl
      · split at h
        · rename_i p args hp hargs
          cases h
          have := (mapOptM_forall2 _ _ _ hargs).length_eq
          simpa using this.symm
        · cases h

/-! ## Claims -/

/-- C2: for the exec call with argv
`["gcc","-c","-I/root/inc","-o","/root/out/a.o","/root/src/a.c"]`, root
directory `/root` and working directory `/root`, the canonicaliser
followed by the compiler analyser produces logged arguments
`["gcc","-c","-Iinc","-o","out/a.o","src/a.c"]`, current_directory `.`,
inputs `["src/a.c"]` and outputs `["out/a.o"]`. -/
theorem scenario_s1_canonicalise_and_analyze :
    process_command 10 (fun s => s == "gcc" || s == "src/a.c") "gcc"
      ["gcc", "-c", "-I/root/inc", "-o", "/root/out/a.o", "/root/src/a.c"]
      ["INTERCEPTOR_root_directory=/root", "INTERCEPTOR_command_log=/log"] "/root" =
    .run
      (some ⟨"gcc", ".", ["gcc", "-c", "-Iinc", "-o", "out/a.o", "src/a.c"], [],
        ["src/a.c"], ["out/a.o"]⟩)
      ⟨"gcc", ".", ["gcc", "-c", "-Iinc", "-o", "out/a.o", "src/a.c"],
        [("INTERCEPTOR_root_directory", "/root"), ("INTERCEPTOR_command_log", "/log")],
        ["src/a.c"], ["out/a.o"]⟩ := by
  rfl

/-- C6: the archiver analyser returns the empty result on fewer than three
arguments, and otherwise outputs exactly `[arguments[2]]` and inputs
exactly `arguments[3..]` in order, with `arguments[1]` contributing
nothing. -/
theorem archiver_analysis (args : List String) :
    (args.length < 3 → analyze_archiver args = ⟨[], []⟩) ∧
    (∀ a0 aflags out ins, args = a0 :: aflags :: out :: ins →
      analyze_archiver args = ⟨ins, [out]⟩) := by
  constructor
  · intro h
    match args, h with
    | [], _ => rfl
    | [_], _ => rfl
    | [_, _], _ => rfl
    | _ :: _ :: _ :: rest, h => simp at h; omega
  · rintro a0 aflags out ins rfl
    rfl

/-- C6 witness: scenario S3. -/
theorem archiver_analysis_witness :
    analyze_archiver ["ar", "rcs", "libfoo.a", "a.o", "b.o"] =
      ⟨["a.o", "b.o"], ["libfoo.a"]⟩ :=
  (archiver_analysis ["ar", "rcs", "libfoo.a", "a.o", "b.o"]).2
    "ar" "rcs" "libfoo.a" ["a.o", "b.o"] rfl

/-- C9: the claim says the driver's exit status equals the sub-command's
exit status.  `main` (main.cc line 154) returns the raw `std::system`
value, which carries the exit code in bits 8-15, and the operating system
keeps only the low 8 bits of `main`'s return value — so a sub-command that
exits 1 makes the driver exit 0, not 1. -/
theorem driver_exit_status_drops_child_code :
    driverExitStatus 1 = 0 ∧ driverExitStatus 0 = 0 ∧ driverExitStatus 1 ≠ 1 := by
  decide

/-- C5 counterexample: for a logged command with outputs `[""]` the unique
non-`.d` element of `outputs` is the empty string, so the claim's reading
makes the entry's output present (the empty string), but the code omits
the field (`!single_output.empty()`, part_000 line 176). -/
theorem compdb_output_empty_string_cex :
    (compdbEntriesOfCommand "/r"
        ⟨"gcc", ".", ["gcc", "x.c"], [], ["x.c"], [""]⟩).map (fun e => e.output) =
      [none] ∧
    specSingleOutput [""] = some "" ∧
    ((none : Option String) ≠ some "") := by
  refine ⟨rfl, rfl, by decide⟩

/-- C5 (amended): for every command of the compacted log with non-empty
arguments, compiler basename and no `-E`, the compilation database
contains exactly one entry per input with a recognised source extension,
whose arguments are the command's arguments, whose directory is the root
joined with the current directory, whose file is the input, and whose
output is the unique non-`.d` element of the outputs — omitted when there
are zero or more than one such elements, or when the unique element is the
empty string; an empty overall result is the text `[]\n`. -/
theorem compdb_faithfulness :
    (∀ (root : String) (c : Command),
      c.arguments ≠ [] →
      kCompilers.contains (pathFilename (c.arguments.headD "")) = true →
      c.arguments.contains "-E" = false →
      compdbEntriesOfCommand root c =
        (c.inputs.filter (fun i => kCompileExtensions.contains (pathExtension i))).map
          (fun i =>
            { directory := pathJoin root c.current_directory
              file := i
              output := if singleOutputOf c.outputs = "" then none
                        else some (singleOutputOf c.outputs)
              arguments := c.arguments })) ∧
    (∀ log : LogFile, compdbEntries log = [] → compdb_to_file log = some "[]\n") := by
  constructor
  · intro root c h1 h2 h3
    have h2m : pathFilename (c.arguments.head?.getD "") ∈ kCompilers := by simpa using h2
    have h3m : "-E" ∉ c.arguments := by simpa using h3
    simp [compdbEntriesOfCommand, h1, h2m, h3m]
  · intro log h
    simp [compdb_to_file, h]

/-- C5 witness: scenario S5 after compaction — one entry for `a.c`, output
`build/a.o` (the unique non-`.d` output); and the empty log yields the
text `[]\n`. -/
theorem compdb_faithfulness_witness :
    compdbEntriesOfCommand "/r"
        ⟨"clang", ".", ["clang", "-Wp,-MMD,build/a.d", "-c", "-o", "build/a.o", "a.c"],
          [], ["a.c"], ["build/a.d", "build/a.o"]⟩ =
      [{ directory := "/r/."
         file := "a.c"
         output := some "build/a.o"
         arguments := ["clang", "-Wp,-MMD,build/a.d", "-c", "-o", "build/a.o", "a.c"] }] ∧
    compdb_to_file ⟨"/r", []⟩ = some "[]\n" := by
  constructor
  · rw [compdb_faithfulness.1 "/r"
      ⟨"clang", ".", ["clang", "-Wp,-MMD,build/a.d", "-c", "-o", "build/a.o", "a.c"],
        [], ["a.c"], ["build/a.d", "build/a.o"]⟩ (by decide) (by decide) (by decide)]
    rfl
  · exact compdb_faithfulness.2 ⟨"/r", []⟩ rfl

/-- C8 counterexample: an exec call with an empty argv is accepted by the
trampoline (the program is a regular file) and reaches analysis with an
empty arguments sequence, where the registry's read of `arguments[0]` is
out of bounds — refuting the claimed invariant. -/
theorem empty_argv_empty_arguments_cex :
    make_relative 3 (instantiate_command "prog" [] [] "/w") =
      .ok (instantiate_command "prog" [] [] "/w") ∧
    (instantiate_command "prog" [] [] "/w").arguments = [] ∧
    process_command 3 (fun s => s == "prog") "prog" [] [] "/w" = .ubEmptyArguments := by
  exact ⟨rfl, rfl, rfl⟩

/-- C8 (amended): for every exec call accepted by the trampoline whose
argv is non-empty, the command that reaches analysis has a non-empty
arguments sequence, and the analyser registry's read of `arguments[0]` is
in bounds. -/
theorem accepted_nonempty_argv_nonempty_arguments
    (fuel : Nat) (filename : String) (argv envp : List String) (cwd : String)
    (cmd1 : Command) (hargv : argv ≠ [])
    (hmr : make_relative fuel (instantiate_command filename argv envp cwd) = .ok cmd1) :
    cmd1.arguments ≠ [] ∧ analyze_command cmd1 ≠ none := by
  have hlen := make_relative_ok_args_length fuel _ cmd1 hmr
  have hlen2 : cmd1.arguments.length = argv.length := by
    simpa [instantiate_command] using hlen
  have hne : cmd1.arguments ≠ [] := by
    intro h
    apply hargv
    rw [h] at hlen2
    exact List.eq_nil_of_length_eq_zero hlen2.symm
  refine ⟨hne, ?_⟩
  cases harg : cmd1.arguments with
  | nil => exact absurd harg hne
  | cons a0 rest => simp [analyze_command, harg]

/-- C8 witness: a one-element argv reaches analysis with a one-element
arguments sequence. -/
theorem accepted_nonempty_argv_nonempty_arguments_witness :
    (["true"] : List String) ≠ [] ∧
    (instantiate_command "/bin/true" ["true"] [] "/w").arguments ≠ [] ∧
    analyze_command (instantiate_command "/bin/true" ["true"] [] "/w") ≠ none := by
  refine ⟨by decide, ?_⟩
  exact accepted_nonempty_argv_nonempty_arguments 3 "/bin/true" ["true"] [] "/w"
    (instantiate_command "/bin/true" ["true"] [] "/w") (by decide) rfl

/-- C10: the canonicaliser hits its out-of-bounds branch (indexing
`root_directory[size()-1]` of an empty value) exactly when the root
environment variable is present with the empty string as value; excluding
that case by hypothesis makes the error branch unreachable. -/
theorem make_relative_empty_root_iff (fuel : Nat) (cmd : Command) :
    make_relative fuel cmd = .error .emptyRoot ↔
      envLookup cmd.environment_variables kEnvRootDirectory = some "" := by
  constructor
  · intro h
    simp only [make_relative] at h
    split at h
    · cases h
    · rename_i v heq
      split at h
      · rename_i hv
        rw [heq, hv]
      · split at h
        · cases h
        · split at h
          · cases h
          · simp at h
  · intro h
    simp only [make_relative, h]
    rfl

/-- C10 witness: the root variable present and empty produces the error
branch. -/
theorem make_relative_empty_root_iff_witness :
    make_relative 1 (instantiate_command "p" ["p"] ["INTERCEPTOR_root_directory="] "/w") =
      .error .emptyRoot :=
  (make_relative_empty_root_iff 1
    (instantiate_command "p" ["p"] ["INTERCEPTOR_root_directory="] "/w")).mpr rfl

/-- C1: for every command that reaches analysis, if any analysed input
(after stripping a leading `./`) is not a regular file, the trampoline
terminates the process with status 1, writing to the standard error
stream a diagnostic that embeds the command repr, and no log record is
appended. -/
theorem missing_input_is_fatal_and_unlogged
    (fuel : Nat) (isReg : String → Bool) (filename : String)
    (argv envp : List String) (cwd : String) (cmd1 : Command) (res : AnalysisResult)
    (hreg : isReg filename = true)
    (hmr : make_relative fuel (instantiate_command filename argv envp cwd) = .ok cmd1)
    (han : analyze_command cmd1 = some res)
    (hbad : ∃ i ∈ res.inputs.map stripDotSlash, isReg i = false) :
    ∃ bad, process_command fuel isReg filename argv envp cwd =
        .fatalMissingInput 1
          ("missing input: " ++ bad ++ "\n" ++ commandRepr cmd1 ++ "\n") ∧
      exitedWith (process_command fuel isReg filename argv envp cwd) = some 1 ∧
      loggedRecord (process_command fuel isReg filename argv envp cwd) = none := by
  obtain ⟨i, hmem, hfalse⟩ := hbad
  cases hf : (res.inputs.map stripDotSlash).find? (fun i => ! isReg i) with
  | none =>
    have := List.find?_eq_none.mp hf i hmem
    simp [hfalse] at this
  | some bad =>
    refine ⟨bad, ?_, ?_, ?_⟩ <;>
      simp [process_command, hreg, hmr, analyzeStep, han, hf, exitedWith, loggedRecord]

/-- C1 witness: a compile command whose input `missing.c` is not a regular
file is fatal with status 1 and leaves no log record. -/
theorem missing_input_is_fatal_and_unlogged_witness :
    ((fun s => s == "prog") "prog" = true) ∧
    (∃ bad, process_command 3 (fun s => s == "prog") "prog" ["gcc", "missing.c"] [] "/w" =
        .fatalMissingInput 1
          ("missing input: " ++ bad ++ "\n" ++
            commandRepr ⟨"prog", "/w", ["gcc", "missing.c"], [], [], []⟩ ++ "\n") ∧
      exitedWith
        (process_command 3 (fun s => s == "prog") "prog" ["gcc", "missing.c"] [] "/w") =
        some 1 ∧
      loggedRecord
        (process_command 3 (fun s => s == "prog") "prog" ["gcc", "missing.c"] [] "/w") =
        none) :=
  ⟨rfl,
    missing_input_is_fatal_and_unlogged 3 (fun s => s == "prog") "prog"
      ["gcc", "missing.c"] [] "/w"
      ⟨"prog", "/w", ["gcc", "missing.c"], [], [], []⟩ ⟨["missing.c"], []⟩
      rfl rfl rfl ⟨"missing.c", by simp [stripDotSlash, strIsPrefixOf], rfl⟩⟩

/-- C7: an argument equal to `/dev/null` or `-` that is not consumed as
the value of a preceding `-o` and not consumed by a pending skip-next
makes the compiler/linker analyser return the empty result, discarding
anything collected so far; and (scenario S4) such a command is still
logged with empty inputs and outputs. -/
theorem devnull_aborts_and_still_logged
    (a0 a : String) (pre post : List String)
    (ha : a = "/dev/null" ∨ a = "-")
    (hflags : aclFlags pre (false, false) = (false, false)) :
    analyze_compiler_linker (a0 :: (pre ++ a :: post)) = ⟨[], []⟩ ∧
    process_command 3 (fun s => s == "gcc") "gcc" ["gcc", "-o", "t", "/dev/null"]
        ["INTERCEPTOR_command_log=/log"] "/w" =
      .run (some ⟨"gcc", "/w", ["gcc", "-o", "t", "/dev/null"], [], [], []⟩)
        ⟨"gcc", "/w", ["gcc", "-o", "t", "/dev/null"],
          [("INTERCEPTOR_command_log", "/log")], [], []⟩ := by
  constructor
  · show aclGo ((a0 :: (pre ++ a :: post)).drop 1) false false ⟨[], []⟩ = ⟨[], []⟩
    rw [List.drop_one, List.tail_cons]
    rcases aclGo_append (a :: post) pre false false ⟨[], []⟩ with h | ⟨acc2, h⟩
    · exact h
    · rw [hflags] at h
      rw [h]
      rcases ha with ha | ha <;> subst ha <;> rfl
  · rfl

/-- C7 witness: scenario S4, `["gcc","-o","t","/dev/null"]` — the state
after `["-o","t"]` is clear, so `/dev/null` aborts the analysis. -/
theorem devnull_aborts_and_still_logged_witness :
    analyze_compiler_linker ["gcc", "-o", "t", "/dev/null"] = ⟨[], []⟩ ∧
    process_command 3 (fun s => s == "gcc") "gcc" ["gcc", "-o", "t", "/dev/null"]
        ["INTERCEPTOR_command_log=/log"] "/w" =
      .run (some ⟨"gcc", "/w", ["gcc", "-o", "t", "/dev/null"], [], [], []⟩)
        ⟨"gcc", "/w", ["gcc", "-o", "t", "/dev/null"],
          [("INTERCEPTOR_command_log", "/log")], [], []⟩ :=
  devnull_aborts_and_still_logged "gcc" "/dev/null" ["-o", "t"] []
    (Or.inl rfl) rfl

/-- Bridge from the string-level replacement loop to the relational
description: a successful `replFixS` run relates source and target by
`ReplStar`, and the target has no occurrence of the pattern left. -/
theorem replFixS_replStar (fuel : Nat) (pat repl a b : String)
    (h : replFixS fuel pat repl a = some b) :
    ReplStar pat.data repl.data a.data b.data ∧
      splitAtSub pat.data b.data = none := by
  rw [replFixS] at h
  obtain ⟨l, hl, hb⟩ := Option.map_eq_some'.mp h
  subst hb
  refine ⟨replFix_replStar pat.data repl.data fuel a.data l hl, ?_⟩
  exact replStar_no_occurrence pat.data repl.data a.data l
    (replFix_replStar pat.data repl.data fuel a.data l hl)

/-- C3 counterexample: with root `/root` and working directory `/root`
(so `R = "/root/"` and `r` is empty), the argument `/roo/root/t/x`
canonicalises to `x` — the first replacement creates a new occurrence of
`R`, which the code's restarted search also replaces — whereas the
claimed single left-to-right pass yields `/root/x`. -/
theorem replace_not_single_pass_cex :
    make_relative 10 (instantiate_command "p" ["p", "/roo/root/t/x"]
        ["INTERCEPTOR_root_directory=/root"] "/root") =
      .ok ⟨"p", ".", ["p", "x"], [("INTERCEPTOR_root_directory", "/root")], [], []⟩ ∧
    List.map (fun s => replaceSPS "/root/" "" s) ["p", "/roo/root/t/x"] =
      ["p", "/root/x"] ∧
    (["p", "x"] : List String) ≠ ["p", "/root/x"] := by
  refine ⟨rfl, rfl, by decide⟩

/-- C3 (amended): when canonicalisation is not skipped, the canonicaliser
transforms the program and each argument by repeatedly replacing the
leftmost occurrence of the slash-terminated root string `R` with the
relative string `r`, restarting the search from the start of the string
after each replacement — so occurrences created by earlier replacements
are themselves replaced — until the string contains no occurrence of
`R`. -/
theorem make_relative_fixpoint_replacement
    (fuel : Nat) (cmd cmd1 : Command) (v : String)
    (henv : envLookup cmd.environment_variables kEnvRootDirectory = some v)
    (hv : v ≠ "")
    (hguard : splitAtSub (rootDirOf v).data
      (relRootOf v cmd.current_directory).data = none)
    (hmr : make_relative fuel cmd = .ok cmd1) :
    (ReplStar (rootDirOf v).data (relRootOf v cmd.current_directory).data
        cmd.program.data cmd1.program.data ∧
      splitAtSub (rootDirOf v).data cmd1.program.data = none) ∧
    List.Forall₂
      (fun a b =>
        ReplStar (rootDirOf v).data (relRootOf v cmd.current_directory).data
          a.data b.data ∧
        splitAtSub (rootDirOf v).data b.data = none)
      cmd.arguments cmd1.arguments := by
  simp only [make_relative, henv, if_neg hv, hguard, Option.isSome_none,
    Bool.false_eq_true, if_false] at hmr
  cases hp : replFixS fuel (rootDirOf v) (relRootOf v cmd.current_directory)
      cmd.program with
  | none => rw [hp] at hmr; cases hmr
  | some p =>
    cases hargs : mapOptM
        (replFixS fuel (rootDirOf v) (relRootOf v cmd.current_directory))
        cmd.arguments with
    | none => rw [hp, hargs] at hmr; cases hmr
    | some args =>
      rw [hp, hargs] at hmr
      cases hmr
      constructor
      · exact replFixS_replStar fuel _ _ _ _ hp
      · exact (mapOptM_forall2 _ _ _ hargs).imp
          (fun a b h => replFixS_replStar fuel _ _ a b h)

/-- C3 witness: root `/root`, working directory `/root`; the argument
`/root/x` canonicalises to `x` through the leftmost-replacement
closure. -/
theorem make_relative_fixpoint_replacement_witness :
    make_relative 5 (instantiate_command "p" ["p", "/root/x"]
        ["INTERCEPTOR_root_directory=/root"] "/root") =
      .ok ⟨"p", ".", ["p", "x"], [("INTERCEPTOR_root_directory", "/root")], [], []⟩ ∧
    List.Forall₂
      (fun a b =>
        ReplStar (rootDirOf "/root").data (relRootOf "/root" "/root").data
          a.data b.data ∧
        splitAtSub (rootDirOf "/root").data b.data = none)
      ["p", "/root/x"] ["p", "x"] :=
  ⟨rfl,
    (make_relative_fixpoint_replacement 5
      (instantiate_command "p" ["p", "/root/x"]
        ["INTERCEPTOR_root_directory=/root"] "/root")
      ⟨"p", ".", ["p", "x"], [("INTERCEPTOR_root_directory", "/root")], [], []⟩
      "/root" rfl (by decide) rfl rfl).2⟩

/-- `List.Forall₂.imp` with access to membership of the left element. -/
theorem forall2_imp_mem {α β : Type} {R S : α → β → Prop} :
    ∀ {l1 : List α} {l2 : List β}, List.Forall₂ R l1 l2 →
      (∀ a b, a ∈ l1 → R a b → S a b) → List.Forall₂ S l1 l2 := by
  intro l1 l2 h
  induction h with
  | nil => intro _; exact .nil
  | cons hR _ ih =>
    intro himp
    exact .cons (himp _ _ (List.mem_cons_self _ _) hR)
      (ih (fun a b hm hr => himp a b (List.mem_cons_of_mem _ hm) hr))

/-- Under `simpleSubst`, the replacement loop performs exactly one
replacement, and the single-pass inverse substitution of `repl` by `pat`
restores the original string. -/
theorem replFix_inverse (fuel : Nat) (pat repl s t : List Char)
    (hrepl : repl ≠ [])
    (hsimple : simpleSubst pat repl s = true)
    (hfix : replFix fuel pat repl s = some t) :
    replaceSP repl pat t = s := by
  rw [simpleSubst] at hsimple
  cases hsp : splitAtSub pat s with
  | none =>
    rw [hsp] at hsimple
    have h2 : splitAtSub repl s = none := by simpa using hsimple
    rw [replFix_of_none fuel pat repl s hsp] at hfix
    cases hfix
    exact replaceSP_of_none repl pat s h2
  | some pr =>
    obtain ⟨pa, pb⟩ := pr
    rw [hsp] at hsimple
    simp only [Bool.and_eq_true, beq_iff_eq] at hsimple
    obtain ⟨⟨h1, h2⟩, h3⟩ := hsimple
    have ht : t = pa ++ repl ++ pb :=
      replFix_single fuel pat repl s t pa pb hsp h1 hfix
    subst ht
    rw [replaceSP_of_split repl pat hrepl _ pa pb h2]
    rw [replaceSP_of_none repl pat pb h3]
    exact (splitAtSub_eq_append pat s pa pb hsp).symm

/-- String-level version of `replFix_inverse`. -/
theorem replFixS_inverse (fuel : Nat) (pat repl a b : String)
    (hrepl : repl.data ≠ [])
    (hsimple : simpleSubst pat.data repl.data a.data = true)
    (h : replFixS fuel pat repl a = some b) :
    replaceSPS repl pat b = a := by
  rw [replFixS] at h
  obtain ⟨l, hl, hb⟩ := Option.map_eq_some'.mp h
  subst hb
  rw [replaceSPS]
  rw [replFix_inverse fuel pat.data repl.data a.data l hrepl hsimple hl]

/-- C4 counterexample: with root `/root` and working directory
`/root/sub` the relative root `r` is `../`; the argument `../x` contains
no occurrence of `R` and is logged unchanged, but the inverse textual
substitution (every `r` becomes `R`) turns it into `/root/x`, not the
pre-canonicalisation `../x` — so the round trip fails. -/
theorem round_trip_fails_cex :
    make_relative 5 (instantiate_command "p" ["p", "../x"]
        ["INTERCEPTOR_root_directory=/root"] "/root/sub") =
      .ok ⟨"p", "sub", ["p", "../x"], [("INTERCEPTOR_root_directory", "/root")], [], []⟩ ∧
    relRootOf "/root" "/root/sub" = "../" ∧
    replaceSPS "../" "/root/" "../x" = "/root/x" ∧
    ("/root/x" : String) ≠ "../x" := by
  refine ⟨rfl, rfl, rfl, by decide⟩

/-- C4 (amended): the round trip holds for every accepted command in
which `r` is non-empty and the program and each argument have a simple
occurrence structure — `R` occurs at most once, no occurrence of `r` is
present other than the one the substitution produces, and the
substitution creates no new occurrence of `R`.  Then replacing `r` by `R`
in the logged program and arguments restores the pre-canonicalisation
values. -/
theorem round_trip_under_simple_substitution
    (fuel : Nat) (cmd cmd1 : Command) (v : String)
    (henv : envLookup cmd.environment_variables kEnvRootDirectory = some v)
    (hv : v ≠ "")
    (hrel : relRootOf v cmd.current_directory ≠ "")
    (hguard : splitAtSub (rootDirOf v).data
      (relRootOf v cmd.current_directory).data = none)
    (hmr : make_relative fuel cmd = .ok cmd1)
    (hsimple : ∀ s ∈ cmd.program :: cmd.arguments,
      simpleSubst (rootDirOf v).data (relRootOf v cmd.current_directory).data
        s.data = true) :
    replaceSPS (relRootOf v cmd.current_directory) (rootDirOf v) cmd1.program =
      cmd.program ∧
    List.Forall₂
      (fun a b =>
        replaceSPS (relRootOf v cmd.current_directory) (rootDirOf v) b = a)
      cmd.arguments cmd1.arguments := by
  have hrd : (relRootOf v cmd.current_directory).data ≠ [] := by
    intro h
    exact hrel (String.ext h)
  simp only [make_relative, henv, if_neg hv, hguard, Option.isSome_none,
    Bool.false_eq_true, if_false] at hmr
  cases hp : replFixS fuel (rootDirOf v) (relRootOf v cmd.current_directory)
      cmd.program with
  | none => rw [hp] at hmr; cases hmr
  | some p =>
    cases hargs : mapOptM
        (replFixS fuel (rootDirOf v) (relRootOf v cmd.current_directory))
        cmd.arguments with
    | none => rw [hp, hargs] at hmr; cases hmr
    | some args =>
      rw [hp, hargs] at hmr
      cases hmr
      constructor
      · exact replFixS_inverse fuel _ _ _ _ hrd
          (hsimple cmd.program (List.mem_cons_self _ _)) hp
      · exact forall2_imp_mem (mapOptM_forall2 _ _ _ hargs)
          (fun a b hmem h => replFixS_inverse fuel _ _ a b hrd
            (hsimple a (List.mem_cons_of_mem _ hmem)) h)

/-- C4 witness: root `/root`, working directory `/root/sub`, argument
`/root/x` — the logged `../x` maps back to `/root/x` under the inverse
substitution. -/
theorem round_trip_under_simple_substitution_witness :
    make_relative 5 (instantiate_command "p" ["p", "/root/x"]
        ["INTERCEPTOR_root_directory=/root"] "/root/sub") =
      .ok ⟨"p", "sub", ["p", "../x"], [("INTERCEPTOR_root_directory", "/root")], [], []⟩ ∧
    List.Forall₂
      (fun a b => replaceSPS (relRootOf "/root" "/root/sub") (rootDirOf "/root") b = a)
      ["p", "/root/x"] ["p", "../x"] :=
  ⟨rfl,
    (round_trip_under_simple_substitution 5
      (instantiate_command "p" ["p", "/root/x"]
        ["INTERCEPTOR_root_directory=/root"] "/root/sub")
      ⟨"p", "sub", ["p", "../x"], [("INTERCEPTOR_root_directory", "/root")], [], []⟩
      "/root" rfl (by decide) (by decide) rfl rfl (by decide)).2⟩

end Interceptor
